import Mathlib

/-!
Shallow embedding of the real-time latency test program (`rt_utils.h`,
`rt_tuto.cpp`): timespec arithmetic, latency statistics, histogram
bucketing, the real-time configuration sequence and the periodic loop,
together with theorems settling the specification claims.

Machine integers are modelled as `Nat`/`Int` with explicit reduction
modulo `2^64` where the C code performs unsigned 64-bit arithmetic.
`double` values are modelled as exact rationals (`ℚ`), with `Real.sqrt`
for the final square root of the variance.
-/

namespace RpiRtTest

/-- POSIX `struct timespec`: `tv_sec : time_t` (signed 64-bit) and
`tv_nsec : long` (signed 64-bit on the target), modelled as unbounded
integers; the C casts to `uint64_t` are made explicit where they occur. -/
structure Timespec where
  tv_sec : Int
  tv_nsec : Int
deriving DecidableEq, Repr

/-- `static_cast<uint64_t>(x)` for a signed 64-bit value: reduction of the
integer modulo `2^64`, as a natural number. -/
def toU64 (x : Int) : Nat := (x % (2 ^ 64 : Int)).toNat

/-- `static_cast<long>(n)` for an unsigned 64-bit value `n`: values below
`2^63` are unchanged, larger ones wrap to negative (two's complement). -/
def toI64 (n : Nat) : Int :=
  if n % 2 ^ 64 < 2 ^ 63 then ((n % 2 ^ 64 : Nat) : Int)
  else ((n % 2 ^ 64 : Nat) : Int) - 2 ^ 64

/-- `timespec_diff_ns` from `rt_utils.h`: converts both instants to a
64-bit nanosecond count (`uint64` multiplication and addition, hence
modulo `2^64`) and returns the difference, or `0` when `end_ns` does not
exceed `start_ns`. -/
def timespec_diff_ns (start fin : Timespec) : Nat :=
  let start_ns : Nat := (toU64 start.tv_sec * 1000000000 + toU64 start.tv_nsec) % 2 ^ 64
  let end_ns : Nat := (toU64 fin.tv_sec * 1000000000 + toU64 fin.tv_nsec) % 2 ^ 64
  if end_ns > start_ns then end_ns - start_ns else 0

/-- The `while (ts.tv_nsec >= 1000000000)` normalization loop of
`timespec_add_us`: repeatedly carry one second from `tv_nsec` into
`tv_sec`. -/
def normalize (ts : Timespec) : Timespec :=
  if ts.tv_nsec ≥ 1000000000 then
    normalize ⟨ts.tv_sec + 1, ts.tv_nsec - 1000000000⟩
  else ts
termination_by ts.tv_nsec.toNat
decreasing_by
  omega

/-- `timespec_add_us` from `rt_utils.h`: `ts.tv_nsec += (long)(us * 1000)`
(the product taken in `uint64_t`, then cast to `long`), followed by the
carry loop. -/
def timespec_add_us (ts : Timespec) (us : Nat) : Timespec :=
  normalize ⟨ts.tv_sec, ts.tv_nsec + toI64 (us * 1000)⟩

lemma toU64_of_nonneg_lt (x : Int) (h0 : 0 ≤ x) (h : x < 2 ^ 64) :
    toU64 x = x.toNat := by
  unfold toU64
  rw [Int.emod_eq_of_lt h0 h]

lemma toI64_of_lt (n : Nat) (h : n < 2 ^ 63) : toI64 n = (n : Int) := by
  unfold toI64
  have h64 : n % 2 ^ 64 = n := Nat.mod_eq_of_lt (lt_trans h (by norm_num))
  rw [h64]
  rw [if_pos (by omega)]

lemma normalize_total (ts : Timespec) :
    (normalize ts).tv_sec * 1000000000 + (normalize ts).tv_nsec
      = ts.tv_sec * 1000000000 + ts.tv_nsec := by
  induction ts using normalize.induct with
  | case1 ts h ih =>
    rw [normalize, if_pos h]
    rw [ih]
    ring
  | case2 ts h =>
    rw [normalize, if_neg h]

lemma normalize_nsec_lt (ts : Timespec) :
    (normalize ts).tv_nsec < 1000000000 := by
  induction ts using normalize.induct with
  | case1 ts h ih =>
    rw [normalize, if_pos h]
    exact ih
  | case2 ts h =>
    rw [normalize, if_neg h]
    omega

lemma normalize_nsec_nonneg (ts : Timespec) (h0 : 0 ≤ ts.tv_nsec) :
    0 ≤ (normalize ts).tv_nsec := by
  induction ts using normalize.induct with
  | case1 ts h ih =>
    rw [normalize, if_pos h]
    exact ih (by dsimp only; omega)
  | case2 ts h =>
    rw [normalize, if_neg h]
    exact h0

/-- C1 (counterexample). The claim quantifies over all timestamp pairs with
`0 ≤ tv_nsec < 10^9` and asserts the difference never wraps; but the
`uint64_t` conversion in `timespec_diff_ns` is modular, so a timestamp
whose total nanosecond count does not fit in 64 bits (here
`tv_sec = 2^35`) wraps, and a negative `tv_sec` (here `-1`) wraps as
well, producing a result different from the exact difference even though
`end` is strictly after `start`. -/
theorem timespec_diff_ns_wraps :
    (0 ≤ (0 : Int) ∧ (0 : Int) < 1000000000 ∧
      (0 : Int) * 1000000000 + 0 < (2 ^ 35 : Int) * 1000000000 + 0 ∧
      (timespec_diff_ns ⟨0, 0⟩ ⟨2 ^ 35, 0⟩ : Int)
        ≠ ((2 ^ 35 : Int) * 1000000000 + 0) - ((0 : Int) * 1000000000 + 0)) ∧
    ((-1 : Int) * 1000000000 + 0 < (0 : Int) * 1000000000 + 0 ∧
      (timespec_diff_ns ⟨-1, 0⟩ ⟨0, 0⟩ : Int)
        ≠ ((0 : Int) * 1000000000 + 0) - ((-1 : Int) * 1000000000 + 0)) := by
  constructor
  · refine ⟨le_refl 0, by norm_num, by norm_num, ?_⟩
    decide
  · refine ⟨by norm_num, ?_⟩
    decide

/-- C1 (amended). For timestamps with `0 ≤ tv_nsec < 10^9`, `0 ≤ tv_sec`,
and total nanosecond count below `2^64` (so the `uint64_t` conversion is
exact), `timespec_diff_ns start end` equals the exact difference
`(end.tv_sec*10^9 + end.tv_nsec) - (start.tv_sec*10^9 + start.tv_nsec)`
when `end` is strictly after `start`, and equals `0` whenever `end` is
not strictly after `start`; as a natural number it is non-negative. -/
theorem timespec_diff_ns_exact (s f : Timespec)
    (hs0 : 0 ≤ s.tv_sec) (hsn0 : 0 ≤ s.tv_nsec) (hsn1 : s.tv_nsec < 1000000000)
    (hf0 : 0 ≤ f.tv_sec) (hfn0 : 0 ≤ f.tv_nsec) (hfn1 : f.tv_nsec < 1000000000)
    (hsb : s.tv_sec * 1000000000 + s.tv_nsec < 2 ^ 64)
    (hfb : f.tv_sec * 1000000000 + f.tv_nsec < 2 ^ 64) :
    (s.tv_sec * 1000000000 + s.tv_nsec < f.tv_sec * 1000000000 + f.tv_nsec →
      (timespec_diff_ns s f : Int)
        = (f.tv_sec * 1000000000 + f.tv_nsec) - (s.tv_sec * 1000000000 + s.tv_nsec)) ∧
    (f.tv_sec * 1000000000 + f.tv_nsec ≤ s.tv_sec * 1000000000 + s.tv_nsec →
      timespec_diff_ns s f = 0) := by
  have hsSec : toU64 s.tv_sec = s.tv_sec.toNat :=
    toU64_of_nonneg_lt _ hs0 (by nlinarith)
  have hfSec : toU64 f.tv_sec = f.tv_sec.toNat :=
    toU64_of_nonneg_lt _ hf0 (by nlinarith)
  have hsNs : toU64 s.tv_nsec = s.tv_nsec.toNat :=
    toU64_of_nonneg_lt _ hsn0 (by omega)
  have hfNs : toU64 f.tv_nsec = f.tv_nsec.toNat :=
    toU64_of_nonneg_lt _ hfn0 (by omega)
  have hsTot : s.tv_sec.toNat * 1000000000 + s.tv_nsec.toNat < 2 ^ 64 := by omega
  have hfTot : f.tv_sec.toNat * 1000000000 + f.tv_nsec.toNat < 2 ^ 64 := by omega
  unfold timespec_diff_ns
  rw [hsSec, hfSec, hsNs, hfNs,
    Nat.mod_eq_of_lt hsTot, Nat.mod_eq_of_lt hfTot]
  constructor
  · intro hlt
    have hlt' : s.tv_sec.toNat * 1000000000 + s.tv_nsec.toNat
        < f.tv_sec.toNat * 1000000000 + f.tv_nsec.toNat := by omega
    rw [if_pos hlt']
    omega
  · intro hle
    have hle' : ¬ (s.tv_sec.toNat * 1000000000 + s.tv_nsec.toNat
        < f.tv_sec.toNat * 1000000000 + f.tv_nsec.toNat) := by omega
    rw [if_neg hle']

/-- C1 witness for the amended theorem, at `start = (1, 4)`,
`end = (2, 999999999)`. -/
theorem timespec_diff_ns_exact_witness :
    ((0:Int) ≤ 1 ∧ (0:Int) ≤ 4 ∧ (4:Int) < 1000000000 ∧
     (0:Int) ≤ 2 ∧ (0:Int) ≤ 999999999 ∧ (999999999:Int) < 1000000000 ∧
     (1:Int) * 1000000000 + 4 < 2 ^ 64 ∧ (2:Int) * 1000000000 + 999999999 < 2 ^ 64) ∧
    ((1:Int) * 1000000000 + 4 < (2:Int) * 1000000000 + 999999999 →
      (timespec_diff_ns ⟨1, 4⟩ ⟨2, 999999999⟩ : Int)
        = ((2:Int) * 1000000000 + 999999999) - ((1:Int) * 1000000000 + 4)) := by
  refine ⟨⟨by norm_num, by norm_num, by norm_num, by norm_num, by norm_num,
    by norm_num, by norm_num, by norm_num⟩, ?_⟩
  exact (timespec_diff_ns_exact ⟨1, 4⟩ ⟨2, 999999999⟩ (by norm_num) (by norm_num)
    (by norm_num) (by norm_num) (by norm_num) (by norm_num) (by norm_num)
    (by norm_num)).1

/-- C2. For every timespec with sub-second component in `[0, 10^9)` and
every increment `us` with `us * 1000 < 2^63` (far beyond "several
seconds"), after `timespec_add_us ts us` the sub-second component is
again in `[0, 10^9)`, and the represented absolute instant
`tv_sec*10^9 + tv_nsec` equals the original instant plus exactly
`us * 1000` nanoseconds; the repeated while-loop carry makes this hold
even when the period exceeds one second. -/
theorem timespec_add_us_exact (ts : Timespec) (us : Nat)
    (h0 : 0 ≤ ts.tv_nsec) (_h1 : ts.tv_nsec < 1000000000)
    (hus : us * 1000 < 2 ^ 63) :
    0 ≤ (timespec_add_us ts us).tv_nsec ∧
    (timespec_add_us ts us).tv_nsec < 1000000000 ∧
    (timespec_add_us ts us).tv_sec * 1000000000 + (timespec_add_us ts us).tv_nsec
      = ts.tv_sec * 1000000000 + ts.tv_nsec + (us * 1000 : Nat) := by
  unfold timespec_add_us
  rw [toI64_of_lt _ hus]
  refine ⟨?_, ?_, ?_⟩
  · exact normalize_nsec_nonneg _ (by positivity)
  · exact normalize_nsec_lt _
  · rw [normalize_total]
    dsimp only
    ring

/-- C2 witness at `ts = (0, 999999999)`, `us = 2500000` (a 2.5-second
period, which needs the carry loop to run more than once). -/
theorem timespec_add_us_exact_witness :
    ((0:Int) ≤ 999999999 ∧ (999999999:Int) < 1000000000 ∧
      2500000 * 1000 < 2 ^ 63) ∧
    (0 ≤ (timespec_add_us ⟨0, 999999999⟩ 2500000).tv_nsec ∧
     (timespec_add_us ⟨0, 999999999⟩ 2500000).tv_nsec < 1000000000 ∧
     (timespec_add_us ⟨0, 999999999⟩ 2500000).tv_sec * 1000000000
        + (timespec_add_us ⟨0, 999999999⟩ 2500000).tv_nsec
      = (0:Int) * 1000000000 + 999999999 + ((2500000 * 1000 : Nat) : Int)) :=
  ⟨⟨by norm_num, by norm_num, by norm_num⟩,
    timespec_add_us_exact ⟨0, 999999999⟩ 2500000 (by norm_num) (by norm_num)
      (by norm_num)⟩

/-- `*std::min_element(l.begin(), l.end())` for a non-empty list of
`uint64_t` latencies (`0` for the empty list, which the callers rule
out before use). -/
def minElem : List Nat → Nat
  | [] => 0
  | x :: xs => xs.foldl min x

/-- `*std::max_element(l.begin(), l.end())`, same conventions as
`minElem`. -/
def maxElem : List Nat → Nat
  | [] => 0
  | x :: xs => xs.foldl max x

lemma foldl_min_le_init (xs : List Nat) (a : Nat) : xs.foldl min a ≤ a := by
  induction xs generalizing a with
  | nil => simp
  | cons y ys ih => exact le_trans (ih _) (min_le_left _ _)

lemma foldl_min_le_mem (xs : List Nat) (a : Nat) (y : Nat) (hy : y ∈ xs) :
    xs.foldl min a ≤ y := by
  induction xs generalizing a with
  | nil => simp at hy
  | cons z zs ih =>
    rcases List.mem_cons.1 hy with h | h
    · subst h
      show List.foldl min (min a y) zs ≤ y
      exact le_trans (foldl_min_le_init zs (min a y)) (min_le_right a y)
    · exact ih _ h

lemma foldl_min_mem (xs : List Nat) (a : Nat) : xs.foldl min a ∈ a :: xs := by
  induction xs generalizing a with
  | nil => simp
  | cons y ys ih =>
    rw [List.foldl_cons]
    rcases List.mem_cons.1 (ih (min a y)) with h | h
    · rcases min_choice a y with hc | hc
      · rw [h, hc]
        exact List.mem_cons_self _ _
      · rw [h, hc]
        exact List.mem_cons_of_mem _ (List.mem_cons_self _ _)
    · exact List.mem_cons_of_mem _ (List.mem_cons_of_mem _ h)

lemma le_foldl_max_init (xs : List Nat) (a : Nat) : a ≤ xs.foldl max a := by
  induction xs generalizing a with
  | nil => simp
  | cons y ys ih => exact le_trans (le_max_left _ _) (ih _)

lemma le_foldl_max_mem (xs : List Nat) (a : Nat) (y : Nat) (hy : y ∈ xs) :
    y ≤ xs.foldl max a := by
  induction xs generalizing a with
  | nil => simp at hy
  | cons z zs ih =>
    rcases List.mem_cons.1 hy with h | h
    · subst h
      show y ≤ List.foldl max (max a y) zs
      exact le_trans (le_max_right a y) (le_foldl_max_init zs (max a y))
    · exact ih _ h

lemma foldl_max_mem (xs : List Nat) (a : Nat) : xs.foldl max a ∈ a :: xs := by
  induction xs generalizing a with
  | nil => simp
  | cons y ys ih =>
    rw [List.foldl_cons]
    rcases List.mem_cons.1 (ih (max a y)) with h | h
    · rcases max_choice a y with hc | hc
      · rw [h, hc]
        exact List.mem_cons_self _ _
      · rw [h, hc]
        exact List.mem_cons_of_mem _ (List.mem_cons_self _ _)
    · exact List.mem_cons_of_mem _ (List.mem_cons_of_mem _ h)

lemma minElem_le (l : List Nat) (y : Nat) (hy : y ∈ l) : minElem l ≤ y := by
  match l with
  | [] => simp at hy
  | x :: xs =>
    rcases List.mem_cons.1 hy with h | h
    · subst h
      exact foldl_min_le_init _ _
    · exact foldl_min_le_mem _ _ _ h

lemma le_maxElem (l : List Nat) (y : Nat) (hy : y ∈ l) : y ≤ maxElem l := by
  match l with
  | [] => simp at hy
  | x :: xs =>
    rcases List.mem_cons.1 hy with h | h
    · subst h
      exact le_foldl_max_init _ _
    · exact le_foldl_max_mem _ _ _ h

lemma minElem_mem (l : List Nat) (hl : l ≠ []) : minElem l ∈ l := by
  match l with
  | [] => exact absurd rfl hl
  | x :: xs => exact foldl_min_mem xs x

lemma maxElem_mem (l : List Nat) (hl : l ≠ []) : maxElem l ∈ l := by
  match l with
  | [] => exact absurd rfl hl
  | x :: xs => exact foldl_max_mem xs x

/-- The `uint64_t sum` accumulation loop of `calculate_stats`: each
addition wraps modulo `2^64`. -/
def sumU64 (l : List Nat) : Nat :=
  l.foldl (fun acc lat => (acc + lat) % 2 ^ 64) 0

lemma foldl_sumU64 (l : List Nat) (a : Nat) (ha : a < 2 ^ 64) :
    l.foldl (fun acc lat => (acc + lat) % 2 ^ 64) a = (a + l.sum) % 2 ^ 64 := by
  induction l generalizing a with
  | nil =>
    simp only [List.foldl_nil, List.sum_nil, Nat.add_zero]
    omega
  | cons x xs ih =>
    rw [List.foldl_cons, ih _ (Nat.mod_lt _ (by norm_num)), List.sum_cons]
    omega

lemma sumU64_eq (l : List Nat) : sumU64 l = l.sum % 2 ^ 64 := by
  unfold sumU64
  rw [foldl_sumU64 l 0 (by norm_num), Nat.zero_add]

/-- `struct LatencyStats` from `rt_utils.h`; the two `double` fields are
modelled exactly (`avg_ns` as a rational, `stddev_ns` as a real because
of the square root). -/
structure LatencyStats where
  min_ns : Nat
  max_ns : Nat
  avg_ns : ℚ
  stddev_ns : ℝ

/-- `calculate_stats` from `rt_utils.h`: zero stats on an empty vector;
otherwise min/max scans, a `uint64_t` sum divided by the count for the
mean, and the population standard deviation
`sqrt(Σ (xᵢ - µ)² / N)` over deviations from that mean. -/
noncomputable def calculate_stats (latencies : List Nat) : LatencyStats :=
  if latencies.isEmpty then ⟨0, 0, 0, 0⟩
  else
    let mn := minElem latencies
    let mx := maxElem latencies
    let sum := sumU64 latencies
    let avg : ℚ := (sum : ℚ) / (latencies.length : ℚ)
    let variance : ℚ :=
      (latencies.map (fun lat => ((lat : ℚ) - avg) * ((lat : ℚ) - avg))).sum
        / (latencies.length : ℚ)
    ⟨mn, mx, avg, Real.sqrt (variance : ℝ)⟩

/-- C9. `calculate_stats` on the empty list returns the all-zero record —
the early-return branch, reached before any division. -/
theorem calculate_stats_empty :
    (calculate_stats []).min_ns = 0 ∧ (calculate_stats []).max_ns = 0 ∧
    (calculate_stats []).avg_ns = 0 ∧ (calculate_stats []).stddev_ns = 0 :=
  ⟨rfl, rfl, rfl, rfl⟩

/-- The mean as the claim phrases it: 64-bit unsigned sum of the samples
divided by the count, as an exact (floating-point-free) value. -/
def meanU64Q (l : List Nat) : ℚ := ((l.sum % 2 ^ 64 : Nat) : ℚ) / (l.length : ℚ)

/-- The population variance over deviations from a given mean `m`, as the
claim phrases it. -/
def popVarianceQ (l : List Nat) (m : ℚ) : ℚ :=
  (l.map (fun lat => ((lat : ℚ) - m) * ((lat : ℚ) - m))).sum / (l.length : ℚ)

/-- C3. On samples `[100, 200, 300]`, `calculate_stats` yields
`min = 100`, `max = 300`, `mean = 200.0`, and the population standard
deviation `sqrt(((100-200)² + 0² + 100²)/3)`; in general (non-empty
input) the mean is the 64-bit-unsigned sum divided by the count and the
standard deviation is the population formula over deviations from that
mean. -/
theorem calculate_stats_known_input :
    ((calculate_stats [100, 200, 300]).min_ns = 100 ∧
     (calculate_stats [100, 200, 300]).max_ns = 300 ∧
     (calculate_stats [100, 200, 300]).avg_ns = 200 ∧
     (calculate_stats [100, 200, 300]).stddev_ns
       = Real.sqrt ((((100 : ℝ) - 200) ^ 2 + ((200 : ℝ) - 200) ^ 2
            + ((300 : ℝ) - 200) ^ 2) / 3)) ∧
    (∀ l : List Nat, l ≠ [] →
      (calculate_stats l).avg_ns = meanU64Q l ∧
      (calculate_stats l).stddev_ns
        = Real.sqrt ((popVarianceQ l (meanU64Q l) : ℚ))) := by
  have key : ∀ l : List Nat, l ≠ [] →
      (calculate_stats l).avg_ns = meanU64Q l ∧
      (calculate_stats l).stddev_ns
        = Real.sqrt ((popVarianceQ l (meanU64Q l) : ℚ)) := by
    intro l hl
    have hne : ¬ (l.isEmpty = true) := by
      simpa using hl
    rw [calculate_stats, if_neg hne]
    simp only [meanU64Q, popVarianceQ, sumU64_eq]
    exact ⟨trivial, trivial⟩
  constructor
  · have h3 : ([100, 200, 300] : List Nat) ≠ [] := by simp
    obtain ⟨havg, hstd⟩ := key [100, 200, 300] h3
    have hm : meanU64Q [100, 200, 300] = 200 := by
      simp only [meanU64Q]
      norm_num
    have havg' : (calculate_stats [100, 200, 300]).avg_ns = 200 := by
      rw [havg, hm]
    refine ⟨rfl, rfl, havg', ?_⟩
    rw [hstd, hm]
    congr 1
    simp only [popVarianceQ]
    push_cast
    norm_num
  · exact key

/-- C3 witness for the general clause, at the one-element list `[7]`. -/
theorem calculate_stats_known_input_witness :
    ([7] : List Nat) ≠ [] ∧
    ((calculate_stats [7]).avg_ns = meanU64Q [7] ∧
     (calculate_stats [7]).stddev_ns
        = Real.sqrt ((popVarianceQ [7] (meanU64Q [7]) : ℚ))) :=
  ⟨by simp, calculate_stats_known_input.2 [7] (by simp)⟩

/-- `calculate_percentile` from `rt_utils.h`: `0` on an empty vector;
otherwise sorts ascending (`std::sort`, modelled by any ascending sort —
the sorted permutation of a list of naturals is unique) and indexes at
`(size_t)((percentile / 100.0) * (size - 1))`, i.e. the floor of the
exact product (the `double` arithmetic is modelled exactly over `ℚ`). -/
def calculate_percentile (latencies : List Nat) (percentile : ℚ) : Nat :=
  if latencies.isEmpty then 0
  else
    let sorted := List.insertionSort (· ≤ ·) latencies
    let index : Nat := (⌊(percentile / 100) * ((latencies.length - 1 : Nat) : ℚ)⌋).toNat
    sorted.getD index 0

/-- C5. `calculate_percentile` sorts ascending and returns the element at
index `floor((p/100) * (count - 1))` of the sorted list (nearest-rank,
not interpolated): `calculate_percentile [100,200,300,400] 50` is the
element at index `floor(0.5*3) = 1` of the ascending sort, namely `200`
and not an interpolated `250`. The general clause characterizes the
result against any ascending-sorted permutation of the input. -/
theorem calculate_percentile_nearest_rank :
    (calculate_percentile [100, 200, 300, 400] 50 = 200 ∧
     (⌊((50 : ℚ) / 100) * ((([100, 200, 300, 400] : List Nat).length - 1 : Nat) : ℚ)⌋).toNat = 1 ∧
     calculate_percentile [100, 200, 300, 400] 50 ≠ 250) ∧
    (∀ (l s : List Nat) (p : ℚ), l ≠ [] → s.Perm l → List.Sorted (· ≤ ·) s →
      calculate_percentile l p
        = s.getD (⌊(p / 100) * ((l.length - 1 : Nat) : ℚ)⌋).toNat 0) := by
  have key : ∀ (l s : List Nat) (p : ℚ), l ≠ [] → s.Perm l → List.Sorted (· ≤ ·) s →
      calculate_percentile l p
        = s.getD (⌊(p / 100) * ((l.length - 1 : Nat) : ℚ)⌋).toNat 0 := by
    intro l s p hl hperm hsort
    have hne : ¬ (l.isEmpty = true) := by
      simpa using hl
    rw [calculate_percentile, if_neg hne]
    have hs : List.insertionSort (· ≤ ·) l = s :=
      List.eq_of_perm_of_sorted ((List.perm_insertionSort _ l).trans hperm.symm)
        (List.sorted_insertionSort _ l) hsort
    simp only [hs]
  refine ⟨?_, key⟩
  have hidx : (⌊((50 : ℚ) / 100)
      * ((([100, 200, 300, 400] : List Nat).length - 1 : Nat) : ℚ)⌋).toNat = 1 := by
    norm_num
  have hsorted : List.Sorted (· ≤ ·) ([100, 200, 300, 400] : List Nat) := by decide
  have hres := key [100, 200, 300, 400] [100, 200, 300, 400] 50 (by simp)
    (List.Perm.refl _) hsorted
  rw [hidx] at hres
  refine ⟨?_, hidx, ?_⟩
  · rw [hres]
    rfl
  · rw [hres]
    decide

/-- C5 witness for the general clause, at `l = [3, 1]`, `s = [1, 3]`,
`p = 50`. -/
theorem calculate_percentile_nearest_rank_witness :
    (([3, 1] : List Nat) ≠ [] ∧ ([1, 3] : List Nat).Perm [3, 1] ∧
      List.Sorted (· ≤ ·) ([1, 3] : List Nat)) ∧
    calculate_percentile [3, 1] 50
      = ([1, 3] : List Nat).getD
          (⌊((50 : ℚ) / 100) * ((([3, 1] : List Nat).length - 1 : Nat) : ℚ)⌋).toNat 0 :=
  ⟨⟨by simp, by decide, by decide⟩,
    calculate_percentile_nearest_rank.2 [3, 1] [1, 3] 50 (by simp) (by decide) (by decide)⟩

/-- C10. For a non-empty sample list and `0 ≤ p ≤ 100`, the index
`floor((p/100) * (count - 1))` computed by `calculate_percentile` is at
most `count - 1`, so the element access is within bounds; in particular
`p = 100` returns the maximum element of the list. -/
theorem calculate_percentile_index_in_bounds (l : List Nat) (p : ℚ)
    (hl : l ≠ []) (hp0 : 0 ≤ p) (hp1 : p ≤ 100) :
    (⌊(p / 100) * ((l.length - 1 : Nat) : ℚ)⌋).toNat ≤ l.length - 1 ∧
    (p = 100 →
      calculate_percentile l p ∈ l ∧ ∀ x ∈ l, x ≤ calculate_percentile l p) := by
  constructor
  · have h1 : p / 100 ≤ 1 := by
      rw [div_le_one (by norm_num : (0 : ℚ) < 100)]
      exact hp1
    have h0 : (0 : ℚ) ≤ p / 100 := by positivity
    have hc : (0 : ℚ) ≤ ((l.length - 1 : Nat) : ℚ) := Nat.cast_nonneg _
    have hmul : (p / 100) * ((l.length - 1 : Nat) : ℚ) ≤ ((l.length - 1 : Nat) : ℚ) := by
      nlinarith
    have hfloor : ⌊(p / 100) * ((l.length - 1 : Nat) : ℚ)⌋ ≤ ((l.length - 1 : Nat) : Int) := by
      have h := Int.floor_le_floor hmul
      rwa [Int.floor_natCast] at h
    omega
  · intro hp
    subst hp
    have hne : ¬ (l.isEmpty = true) := by
      simpa using hl
    have hpos : 0 < l.length := List.length_pos.2 hl
    have hlen : (List.insertionSort (· ≤ ·) l).length = l.length :=
      (List.perm_insertionSort (· ≤ ·) l).length_eq
    have hidx : (⌊((100 : ℚ) / 100) * ((l.length - 1 : Nat) : ℚ)⌋).toNat = l.length - 1 := by
      norm_num
    rw [calculate_percentile, if_neg hne]
    simp only [hidx]
    have hb : l.length - 1 < (List.insertionSort (· ≤ ·) l).length := by omega
    rw [List.getD_eq_getElem _ _ hb]
    have hsort : List.Sorted (· ≤ ·) (List.insertionSort (· ≤ ·) l) :=
      List.sorted_insertionSort (· ≤ ·) l
    constructor
    · exact (List.perm_insertionSort (· ≤ ·) l).subset (List.getElem_mem hb)
    · intro x hx
      have hxs : x ∈ List.insertionSort (· ≤ ·) l :=
        ((List.perm_insertionSort (· ≤ ·) l).symm.subset) hx
      obtain ⟨⟨i, hi⟩, hgi⟩ := List.mem_iff_get.1 hxs
      have hle : (⟨i, hi⟩ : Fin (List.insertionSort (· ≤ ·) l).length)
          ≤ ⟨l.length - 1, hb⟩ := by
        simp only [Fin.mk_le_mk]
        omega
      have h := hsort.rel_get_of_le hle
      rw [hgi] at h
      exact h

/-- C10 witness at `l = [2, 9]`, `p = 100`. -/
theorem calculate_percentile_index_in_bounds_witness :
    (([2, 9] : List Nat) ≠ [] ∧ (0 : ℚ) ≤ 100 ∧ (100 : ℚ) ≤ 100) ∧
    ((⌊((100 : ℚ) / 100) * ((([2, 9] : List Nat).length - 1 : Nat) : ℚ)⌋).toNat
        ≤ ([2, 9] : List Nat).length - 1 ∧
     ((100 : ℚ) = 100 →
       calculate_percentile [2, 9] 100 ∈ ([2, 9] : List Nat) ∧
       ∀ x ∈ ([2, 9] : List Nat), x ≤ calculate_percentile [2, 9] 100)) :=
  ⟨⟨by simp, by norm_num, by norm_num⟩,
    calculate_percentile_index_in_bounds [2, 9] 100 (by simp) (by norm_num) (by norm_num)⟩

/-- Outcome of `print_histogram`, keeping the parts the numeric contract
is about: the empty-input message, the "all latencies identical" message
(with the printed `min_lat / 1000` µs value), or the per-bin occupancy
counts (the bar rendering itself is purely presentational). -/
inductive HistResult where
  | noData : HistResult
  | identical : Nat → HistResult
  | bars : List Nat → HistResult
deriving DecidableEq, Repr

/-- The bin width of `print_histogram`:
`(max - min) / num_bins`, with `0` replaced by `1`. -/
def binWidth (latencies : List Nat) (num_bins : Nat) : Nat :=
  if (maxElem latencies - minElem latencies) / num_bins = 0 then 1
  else (maxElem latencies - minElem latencies) / num_bins

/-- The bin assignment of `print_histogram`:
`(int)((lat - min_lat) / bin_width)` clamped into `[0, num_bins - 1]`
(the `< 0` clamp of the C code is vacuous over `Nat`, and the
`int` cast is exact for the bin counts and latency ranges in use). -/
def bin_index (min_lat bin_width num_bins lat : Nat) : Nat :=
  if (lat - min_lat) / bin_width ≥ num_bins then num_bins - 1
  else (lat - min_lat) / bin_width

/-- `print_histogram` from `rt_utils.h`, reduced to its bucket contract:
empty message on no data, the identical-values message when
`min == max`, otherwise the occupancy count of every bin
`0 .. num_bins-1` (the counting loop `bins[bin_index]++` is modelled by
`countP` per bin index). -/
def print_histogram (latencies : List Nat) (num_bins : Nat) : HistResult :=
  if latencies.isEmpty then .noData
  else if minElem latencies = maxElem latencies then
    .identical (minElem latencies / 1000)
  else
    .bars ((List.range num_bins).map (fun i =>
      latencies.countP (fun lat =>
        bin_index (minElem latencies) (binWidth latencies num_bins) num_bins lat == i)))

/-- "All samples are equal". -/
def allEqual (l : List Nat) : Prop := ∀ x ∈ l, ∀ y ∈ l, x = y

instance (l : List Nat) : Decidable (allEqual l) := by
  unfold allEqual
  infer_instance

lemma allEqual_iff (l : List Nat) (hl : l ≠ []) :
    allEqual l ↔ minElem l = maxElem l := by
  constructor
  · intro h
    exact h _ (minElem_mem l hl) _ (maxElem_mem l hl)
  · intro h x hx y hy
    have h1 := minElem_le l x hx
    have h2 := le_maxElem l x hx
    have h3 := minElem_le l y hy
    have h4 := le_maxElem l y hy
    omega

lemma binWidth_eq_max (l : List Nat) (N : Nat) :
    binWidth l N = max 1 ((maxElem l - minElem l) / N) := by
  unfold binWidth
  generalize (maxElem l - minElem l) / N = d
  rcases Nat.eq_zero_or_pos d with h | h
  · subst h
    simp
  · rw [if_neg (by omega), Nat.max_eq_right h]

lemma bin_index_lt (m w N lat : Nat) (hN : 1 ≤ N) : bin_index m w N lat < N := by
  unfold bin_index
  split <;> omega

lemma sum_map_range_add (f g : Nat → Nat) (N : Nat) :
    ((List.range N).map (fun i => f i + g i)).sum
      = ((List.range N).map f).sum + ((List.range N).map g).sum := by
  induction N with
  | zero => simp
  | succ n ih =>
    simp only [List.range_succ, List.map_append, List.sum_append, List.map_cons,
      List.sum_cons, List.map_nil, List.sum_nil, ih]
    omega

lemma sum_map_range_indicator (N k : Nat) (h : k < N) :
    ((List.range N).map (fun i => if k = i then 1 else 0)).sum = 1 := by
  induction N with
  | zero => omega
  | succ n ih =>
    simp only [List.range_succ, List.map_append, List.sum_append, List.map_cons,
      List.sum_cons, List.map_nil, List.sum_nil]
    rcases Nat.lt_or_ge k n with hk | hk
    · rw [ih hk, if_neg (by omega)]
      omega
    · have hkn : k = n := by omega
      subst hkn
      rw [if_pos rfl]
      have hz : ((List.range k).map (fun i => if k = i then 1 else 0)).sum = 0 := by
        apply List.sum_eq_zero
        intro x hx
        obtain ⟨i, hi, rfl⟩ := List.mem_map.1 hx
        rw [if_neg]
        intro hki
        rw [hki] at hi
        exact absurd (List.mem_range.1 hi) (lt_irrefl _)
      rw [hz]
      omega

lemma sum_countP_eq_length (l : List Nat) (f : Nat → Nat) (N : Nat)
    (h : ∀ x ∈ l, f x < N) :
    ((List.range N).map (fun i => l.countP (fun x => f x == i))).sum = l.length := by
  induction l with
  | nil => simp
  | cons x xs ih =>
    have hx : f x < N := h x (List.mem_cons_self _ _)
    have hxs : ∀ y ∈ xs, f y < N := fun y hy => h y (List.mem_cons_of_mem _ hy)
    have hcons : ∀ i : Nat, (x :: xs).countP (fun y => f y == i)
        = xs.countP (fun y => f y == i) + (if f x = i then 1 else 0) := by
      intro i
      rw [List.countP_cons]
      by_cases hfx : f x = i
      · simp [hfx]
      · simp [hfx]
    simp only [hcons]
    rw [sum_map_range_add, ih hxs, sum_map_range_indicator N (f x) hx,
      List.length_cons]

/-- C4. For a non-empty sample set whose elements are not all equal and a
bin count `N ≥ 1`, `print_histogram` uses
`bin_width = max(1, (max-min)/N)` (integer floor division), assigns
every sample the bin index `clamp((sample-min)/bin_width, 0, N-1)` which
is always in `[0, N-1]`, and the bin occupancy counts sum to the number
of samples; when all samples are equal it reports the identical-value
result instead of building bins. -/
theorem histogram_bucket_coverage (l : List Nat) (N : Nat)
    (hl : l ≠ []) (hN : 1 ≤ N) :
    (allEqual l → print_histogram l N = .identical (minElem l / 1000)) ∧
    (¬ allEqual l →
      binWidth l N = max 1 ((maxElem l - minElem l) / N) ∧
      (∀ lat ∈ l, bin_index (minElem l) (binWidth l N) N lat < N) ∧
      print_histogram l N
        = .bars ((List.range N).map (fun i =>
            l.countP (fun lat => bin_index (minElem l) (binWidth l N) N lat == i))) ∧
      ((List.range N).map (fun i =>
          l.countP (fun lat => bin_index (minElem l) (binWidth l N) N lat == i))).sum
        = l.length ∧
      ((List.range N).map (fun i =>
          l.countP (fun lat => bin_index (minElem l) (binWidth l N) N lat == i))).length
        = N) := by
  have hne : ¬ (l.isEmpty = true) := by
    simpa using hl
  constructor
  · intro ha
    rw [print_histogram, if_neg hne, if_pos ((allEqual_iff l hl).1 ha)]
  · intro ha
    have hmm : ¬ (minElem l = maxElem l) := fun h => ha ((allEqual_iff l hl).2 h)
    refine ⟨binWidth_eq_max l N, fun lat _ => bin_index_lt _ _ _ _ hN, ?_, ?_, ?_⟩
    · rw [print_histogram, if_neg hne, if_neg hmm]
    · exact sum_countP_eq_length l _ N (fun x _ => bin_index_lt _ _ _ _ hN)
    · simp

/-- C4 witness at the two-element sample set `[0, 5000]` with `N = 2`. -/
theorem histogram_bucket_coverage_witness :
    (([0, 5000] : List Nat) ≠ [] ∧ 1 ≤ 2 ∧ ¬ allEqual [0, 5000]) ∧
    (¬ allEqual [0, 5000] →
      binWidth [0, 5000] 2 = max 1 ((maxElem [0, 5000] - minElem [0, 5000]) / 2) ∧
      (∀ lat ∈ ([0, 5000] : List Nat),
        bin_index (minElem [0, 5000]) (binWidth [0, 5000] 2) 2 lat < 2) ∧
      print_histogram [0, 5000] 2
        = .bars ((List.range 2).map (fun i =>
            ([0, 5000] : List Nat).countP (fun lat =>
              bin_index (minElem [0, 5000]) (binWidth [0, 5000] 2) 2 lat == i))) ∧
      ((List.range 2).map (fun i =>
          ([0, 5000] : List Nat).countP (fun lat =>
            bin_index (minElem [0, 5000]) (binWidth [0, 5000] 2) 2 lat == i))).sum
        = ([0, 5000] : List Nat).length ∧
      ((List.range 2).map (fun i =>
          ([0, 5000] : List Nat).countP (fun lat =>
            bin_index (minElem [0, 5000]) (binWidth [0, 5000] 2) 2 lat == i))).length
        = 2) :=
  ⟨⟨by simp, by norm_num, by decide⟩,
    (histogram_bucket_coverage [0, 5000] 2 (by simp) (by norm_num)).2⟩

/-- Outcomes of the three OS calls made by `configure_realtime`
(`mlockall`, `sched_setscheduler`, `pthread_setaffinity_np`): whether
each would return `0` on this run. -/
structure SysEnv where
  mlockall_ok : Bool
  sched_setscheduler_ok : Bool
  setaffinity_ok : Bool
deriving DecidableEq, Repr

/-- Observable result of `configure_realtime`: the boolean it returns,
which of the three steps were attempted, whether the affinity warning
was printed, and whether the `mlockall` lock is still in effect when the
function returns (`munlockall()` undoes it on the scheduling-failure
path). -/
structure RTConfigResult where
  success : Bool
  mlockall_attempted : Bool
  sched_attempted : Bool
  affinity_attempted : Bool
  affinity_warned : Bool
  mem_locked : Bool
deriving DecidableEq, Repr

/-- `configure_realtime` from `rt_tuto.cpp`: step 1 `mlockall` (failure:
return `false`, nothing further attempted); step 2 `sched_setscheduler`
(failure: `munlockall()` then return `false`, affinity never attempted);
step 3 `pthread_setaffinity_np` (failure: warning only, function still
returns `true`). -/
def configure_realtime (env : SysEnv) : RTConfigResult :=
  if env.mlockall_ok = false then
    { success := false, mlockall_attempted := true, sched_attempted := false,
      affinity_attempted := false, affinity_warned := false, mem_locked := false }
  else if env.sched_setscheduler_ok = false then
    { success := false, mlockall_attempted := true, sched_attempted := true,
      affinity_attempted := false, affinity_warned := false, mem_locked := false }
  else
    { success := true, mlockall_attempted := true, sched_attempted := true,
      affinity_attempted := true, affinity_warned := !env.setaffinity_ok,
      mem_locked := true }

/-- C6. If the memory-lock step fails, `configure_realtime` returns
failure without attempting the scheduling or affinity steps; if the
memory lock succeeds but the scheduling step fails, it unlocks memory
and returns failure without attempting the affinity step. -/
theorem configure_realtime_fatal_failures (env : SysEnv) :
    (env.mlockall_ok = false →
      (configure_realtime env).success = false ∧
      (configure_realtime env).sched_attempted = false ∧
      (configure_realtime env).affinity_attempted = false ∧
      (configure_realtime env).mem_locked = false) ∧
    (env.mlockall_ok = true → env.sched_setscheduler_ok = false →
      (configure_realtime env).success = false ∧
      (configure_realtime env).mem_locked = false ∧
      (configure_realtime env).affinity_attempted = false) := by
  rcases env with ⟨m, s, a⟩
  cases m <;> cases s <;> cases a <;> decide

/-- C6 witness: a run where `mlockall` fails, and a run where `mlockall`
succeeds but `sched_setscheduler` fails. -/
theorem configure_realtime_fatal_failures_witness :
    ((configure_realtime ⟨false, true, true⟩).success = false ∧
     (configure_realtime ⟨false, true, true⟩).sched_attempted = false ∧
     (configure_realtime ⟨false, true, true⟩).affinity_attempted = false ∧
     (configure_realtime ⟨false, true, true⟩).mem_locked = false) ∧
    ((configure_realtime ⟨true, false, true⟩).success = false ∧
     (configure_realtime ⟨true, false, true⟩).mem_locked = false ∧
     (configure_realtime ⟨true, false, true⟩).affinity_attempted = false) :=
  ⟨(configure_realtime_fatal_failures ⟨false, true, true⟩).1 rfl,
   (configure_realtime_fatal_failures ⟨true, false, true⟩).2 rfl rfl⟩

/-- C7. Failure of the CPU-affinity step is non-fatal: the run is still
configured successfully (a warning is recorded), and `configure_realtime`
returns failure only when the memory-lock or scheduling-policy step
fails. -/
theorem configure_realtime_affinity_nonfatal (env : SysEnv) :
    (env.mlockall_ok = true → env.sched_setscheduler_ok = true →
      (configure_realtime env).success = true ∧
      (configure_realtime env).affinity_attempted = true ∧
      (env.setaffinity_ok = false → (configure_realtime env).affinity_warned = true)) ∧
    ((configure_realtime env).success = false →
      env.mlockall_ok = false ∨ env.sched_setscheduler_ok = false) := by
  rcases env with ⟨m, s, a⟩
  cases m <;> cases s <;> cases a <;> decide

/-- C7 witness: memory lock and scheduling succeed, affinity fails; the
run is still a success and the warning is recorded. -/
theorem configure_realtime_affinity_nonfatal_witness :
    (configure_realtime ⟨true, true, false⟩).success = true ∧
    (configure_realtime ⟨true, true, false⟩).affinity_attempted = true ∧
    ((⟨true, true, false⟩ : SysEnv).setaffinity_ok = false →
      (configure_realtime ⟨true, true, false⟩).affinity_warned = true) :=
  (configure_realtime_affinity_nonfatal ⟨true, true, false⟩).1 rfl rfl

/-- `PERIOD_US` from `rt_tuto.cpp`. -/
def PERIOD_US : Nat := 1000

/-- `NUM_ITERATIONS` from `rt_tuto.cpp`. -/
def NUM_ITERATIONS : Nat := 1000

/-- The next-period computation at the end of each loop iteration of
`run_periodic_task`: add `PERIOD_US * 1000` ns to `tv_nsec` and carry at
most one second (the loop body uses a single `if`, enough for its 1 ms
period). -/
def advance_period (ts : Timespec) : Timespec :=
  let t : Timespec := ⟨ts.tv_sec, ts.tv_nsec + (PERIOD_US * 1000 : Nat)⟩
  if t.tv_nsec ≥ 1000000000 then ⟨t.tv_sec + 1, t.tv_nsec - 1000000000⟩ else t

/-- The measurement loop of `run_periodic_task`, parameterized by a
simulated clock: `wake i next` is the instant `clock_gettime` observes
immediately after the `clock_nanosleep` until `next` on iteration `i`.
Each iteration records `timespec_diff_ns next now` and advances the
schedule by one period. -/
def run_loop (wake : Nat → Timespec → Timespec) : Nat → Nat → Timespec → List Nat
  | 0, _, _ => []
  | n + 1, i, next =>
      timespec_diff_ns next (wake i next) :: run_loop wake n (i + 1) (advance_period next)

/-- `run_periodic_task` from `rt_tuto.cpp`, under a simulated clock and a
given initial instant read from the monotonic clock: the list of
`NUM_ITERATIONS` measured latencies, in order. -/
def run_periodic_task (wake : Nat → Timespec → Timespec) (start : Timespec) : List Nat :=
  run_loop wake NUM_ITERATIONS 0 start

lemma timespec_diff_ns_self (ts : Timespec) : timespec_diff_ns ts ts = 0 := by
  unfold timespec_diff_ns
  simp

lemma run_loop_perfect (n i : Nat) (next : Timespec) :
    run_loop (fun _ ts => ts) n i next = List.replicate n 0 := by
  induction n generalizing i next with
  | zero => rfl
  | succ m ih =>
    rw [run_loop, timespec_diff_ns_self, ih, List.replicate_succ]

lemma foldl_min_replicate_zero (n : Nat) :
    (List.replicate n (0 : Nat)).foldl min 0 = 0 := by
  induction n with
  | zero => rfl
  | succ m ih =>
    rw [List.replicate_succ, List.foldl_cons]
    simpa using ih

lemma foldl_max_replicate_zero (n : Nat) :
    (List.replicate n (0 : Nat)).foldl max 0 = 0 := by
  induction n with
  | zero => rfl
  | succ m ih =>
    rw [List.replicate_succ, List.foldl_cons]
    simpa using ih

lemma minElem_replicate_zero (n : Nat) (hn : n ≠ 0) :
    minElem (List.replicate n 0) = 0 := by
  obtain ⟨m, rfl⟩ := Nat.exists_eq_succ_of_ne_zero hn
  rw [List.replicate_succ]
  show (List.replicate m (0 : Nat)).foldl min 0 = 0
  exact foldl_min_replicate_zero m

lemma maxElem_replicate_zero (n : Nat) (hn : n ≠ 0) :
    maxElem (List.replicate n 0) = 0 := by
  obtain ⟨m, rfl⟩ := Nat.exists_eq_succ_of_ne_zero hn
  rw [List.replicate_succ]
  show (List.replicate m (0 : Nat)).foldl max 0 = 0
  exact foldl_max_replicate_zero m

lemma calculate_stats_replicate_zero_max (n : Nat) (hn : n ≠ 0) :
    (calculate_stats (List.replicate n 0)).max_ns = 0 := by
  have hne : ¬ ((List.replicate n (0 : Nat)).isEmpty = true) := by
    simp [List.isEmpty_iff, hn]
  rw [calculate_stats, if_neg hne]
  exact maxElem_replicate_zero n hn

lemma print_histogram_replicate_zero (n : Nat) (hn : n ≠ 0) :
    print_histogram (List.replicate n 0) 15 = .identical 0 := by
  have hne : ¬ ((List.replicate n (0 : Nat)).isEmpty = true) := by
    simp [List.isEmpty_iff, hn]
  rw [print_histogram, if_neg hne, minElem_replicate_zero n hn,
    maxElem_replicate_zero n hn, if_pos rfl]

/-- C8. Under a simulated clock whose every wake happens exactly at the
scheduled instant, a run of `NUM_ITERATIONS = 1000` iterations with the
`PERIOD_US = 1000` µs period produces exactly 1000 latencies, all zero;
`calculate_stats` on that sample set reports `max_ns = 0`, and
`print_histogram` reports that all latencies are identical. -/
theorem run_periodic_task_perfect_clock :
    run_periodic_task (fun _ ts => ts) ⟨0, 0⟩ = List.replicate 1000 0 ∧
    (run_periodic_task (fun _ ts => ts) ⟨0, 0⟩).length = 1000 ∧
    (∀ lat ∈ run_periodic_task (fun _ ts => ts) ⟨0, 0⟩, lat = 0) ∧
    (calculate_stats (run_periodic_task (fun _ ts => ts) ⟨0, 0⟩)).max_ns = 0 ∧
    print_histogram (run_periodic_task (fun _ ts => ts) ⟨0, 0⟩) 15 = .identical 0 ∧
    NUM_ITERATIONS = 1000 ∧ PERIOD_US = 1000 := by
  have hrun : run_periodic_task (fun _ ts => ts) ⟨0, 0⟩ = List.replicate 1000 0 :=
    run_loop_perfect 1000 0 ⟨0, 0⟩
  refine ⟨hrun, ?_, ?_, ?_, ?_, rfl, rfl⟩
  · rw [hrun, List.length_replicate]
  · intro lat hlat
    rw [hrun] at hlat
    exact List.eq_of_mem_replicate hlat
  · rw [hrun]
    exact calculate_stats_replicate_zero_max 1000 (by norm_num)
  · rw [hrun]
    exact print_histogram_replicate_zero 1000 (by norm_num)

end RpiRtTest
